import Mathlib

/-!
Shallow embedding of the legacy string type `STRING_old` (and the `split`
member of the thin `STRING` wrapper) from `src/ccutil/strngs.cpp` /
`include/tesseract/strngs.h`.

Modelling conventions:
* A byte is a `Nat` (its `unsigned char` value; character literals appear as
  their ASCII codes, e.g. `97` for `a`).
* The allocated data region of a `STRING_old` is a `List Nat` whose length is
  exactly the header's `capacity_` field: in the source, `capacity_` is
  written only at the two allocation sites (`AllocData`, `ensure_cstr`) and
  always equals the size of the malloc'd data region, so the model stores the
  region and derives the capacity from its length.
* Uninitialized bytes returned by `malloc` are modelled by an explicit `junk`
  argument threaded into every operation that may allocate: the fresh region
  is `junk` padded with zeros and cut to the allocation size, so theorems
  quantifying over `junk` hold for arbitrary uninitialized memory contents.
* A `const char *` argument is modelled as `Option (List Nat)`: `none` is the
  null pointer, and `some l` is a C string whose bytes before the terminator
  are `l` (so `strlen` of the argument is `l.length`, and `*str == 0` iff
  `l = []`).
* A `FILE*` / `TFile*` channel is a pure byte stream: writers produce the
  `List Nat` of bytes written, readers consume a `List Nat` and return the
  remaining stream; `bool` results of the source become `Bool` components.
-/

namespace Strngs

/-- Smallest string to allocate by default (`kMinCapacity` in the source). -/
def kMinCapacity : Int := 16

/-- A fresh `malloc` data region of `cap` bytes: uninitialized contents are
an arbitrary `junk` list, padded with zeros and cut to exactly `cap` bytes. -/
def freshBytes (cap : Nat) (junk : List Nat) : List Nat :=
  (junk ++ List.replicate cap 0).take cap

/-- `memcpy(dst + off, src, src.length)`: overwrite `src.length` bytes of
`dst` starting at offset `off` (the final `take` keeps the region size; all
honest uses stay in range). -/
def memcpyAt (dst : List Nat) (off : Nat) (src : List Nat) : List Nat :=
  (dst.take off ++ src ++ dst.drop (off + src.length)).take dst.length

/-- `strlen` on a data region: index of the first NUL byte (if the region
holds no NUL the scan stops at its end, the defined fragment of the C
behavior). -/
def cstrlen (l : List Nat) : Nat := l.findIdx (· = 0)

/-- The state of a `STRING_old`: the header's `used_` field and the data
region (whose length is the header's `capacity_`). -/
structure STRING_old where
  used_ : Int
  data : List Nat
deriving DecidableEq

namespace STRING_old

/-- The header's `capacity_` field (always the size of the data region). -/
def capacity_ (s : STRING_old) : Int := s.data.length

/-- `STRING_old::AllocData(used, capacity)`: one fresh allocation with the
header fields set. -/
def AllocData (used capacity : Int) (junk : List Nat) : STRING_old :=
  ⟨used, freshBytes capacity.toNat junk⟩

/-- `STRING_old::FixHeader()`: if `used_ < 0`, recompute it as
`strlen(GetCStr()) + 1`. -/
def FixHeader (s : STRING_old) : STRING_old :=
  if s.used_ < 0 then ⟨(cstrlen s.data : Int) + 1, s.data⟩ else s

/-- `STRING_old::ensure_cstr(min_capacity)`: no-op if the capacity already
suffices, else grow to `max(min_capacity, 2 * capacity_)`, copying the first
`used_` live bytes into the fresh region. -/
def ensure_cstr (s : STRING_old) (min_capacity : Int) (junk : List Nat) :
    STRING_old :=
  if min_capacity ≤ s.capacity_ then s
  else
    let mc := if min_capacity < 2 * s.capacity_ then 2 * s.capacity_
              else min_capacity
    ⟨s.used_, memcpyAt (freshBytes mc.toNat junk) 0 (s.data.take s.used_.toNat)⟩

/-- `STRING_old::length()`: fix the header, then `used_ - 1`. -/
def length (s : STRING_old) : Int := (FixHeader s).used_ - 1

/-- Default constructor `STRING_old()`: `memcpy(AllocData(1, kMinCapacity),
"", 1)`. -/
def mkEmpty (junk : List Nat) : STRING_old :=
  let s := AllocData 1 kMinCapacity junk
  ⟨s.used_, memcpyAt s.data 0 [0]⟩

/-- Copy constructor `STRING_old(const STRING_old&)`: fix the source header,
allocate exactly `used` bytes and copy them. -/
def copyCtor (str : STRING_old) (junk : List Nat) : STRING_old :=
  let str := FixHeader str
  let su := str.used_
  let s := AllocData su su junk
  ⟨s.used_, memcpyAt s.data 0 (str.data.take su.toNat)⟩

/-- Constructor `STRING_old(const char *cstr)`. -/
def fromCstr (cstr : Option (List Nat)) (junk : List Nat) : STRING_old :=
  match cstr with
  | none => mkEmpty junk
  | some cs =>
    let len : Int := (cs.length : Int) + 1
    let s := AllocData len len junk
    ⟨s.used_, memcpyAt s.data 0 (cs ++ [0])⟩

/-- Constructor `STRING_old(const char *data, int length)`: copy `length`
bytes (embedded NULs allowed) and append a terminator. -/
def fromData (d : Option (List Nat)) (len : Int) (junk : List Nat) :
    STRING_old :=
  match d with
  | none => mkEmpty junk
  | some ds =>
    let s := AllocData (len + 1) (len + 1) junk
    let d' := memcpyAt s.data 0 (ds.take len.toNat)
    ⟨len + 1, d'.set len.toNat 0⟩

/-- `STRING_old::truncate_at(index)` (defined for `index ≥ 0`, the source
asserts this): fix the header, ensure capacity `index + 1`, write a
terminator at `index`, set `used_ = index + 1`. -/
def truncate_at (s : STRING_old) (index : Int) (junk : List Nat) :
    STRING_old :=
  let s := FixHeader s
  let s := ensure_cstr s (index + 1) junk
  ⟨index + 1, s.data.set index.toNat 0⟩

/-- `STRING_old::operator[](index)` marks the header dirty (`used_ = -1`)
before handing out a mutable reference. -/
def subscriptDirty (s : STRING_old) : STRING_old := ⟨-1, s.data⟩

/-- External code writing byte `b` at offset `j` through the reference
returned by `operator[]` (which first marks the header dirty). -/
def extWrite (s : STRING_old) (j : Nat) (b : Nat) : STRING_old :=
  let s := subscriptDirty s
  ⟨s.used_, s.data.set j b⟩

/-- `STRING_old::operator=(const STRING_old&)`. -/
def assignStr (s str : STRING_old) (junk : List Nat) : STRING_old :=
  let str := FixHeader str
  let su := str.used_
  let s1 := ensure_cstr ⟨0, s.data⟩ su junk
  ⟨su, memcpyAt s1.data 0 (str.data.take su.toNat)⟩

/-- `STRING_old::operator=(const char*)`: copy-in, or reset to the
default-constructed state when the pointer is null. -/
def assignCstr (s : STRING_old) (cstr : Option (List Nat))
    (junk : List Nat) : STRING_old :=
  match cstr with
  | some cs =>
    let len : Int := (cs.length : Int) + 1
    let s1 := ensure_cstr ⟨0, s.data⟩ len junk
    ⟨len, memcpyAt s1.data 0 (cs ++ [0])⟩
  | none => mkEmpty junk

/-- `STRING_old::assign(const char *cstr, int len)`. -/
def assign (s : STRING_old) (cs : List Nat) (len : Int) (junk : List Nat) :
    STRING_old :=
  let s1 := ensure_cstr ⟨0, s.data⟩ (len + 1) junk
  let d := memcpyAt s1.data 0 (cs.take len.toNat)
  ⟨len + 1, d.set len.toNat 0⟩

/-- `STRING_old::operator+=(const STRING_old&)`. -/
def plusEqStr (s str : STRING_old) (junk : List Nat) : STRING_old :=
  let s := FixHeader s
  let str := FixHeader str
  let su := str.used_
  let tu := s.used_
  let s1 := ensure_cstr s (tu + su) junk
  if tu > 1 then
    ⟨tu + su - 1, memcpyAt s1.data (tu - 1).toNat (str.data.take su.toNat)⟩
  else
    ⟨su, memcpyAt s1.data 0 (str.data.take su.toNat)⟩

/-- `STRING_old::operator+(const STRING_old&)`: copy then append. -/
def plusStr (s str : STRING_old) (junk1 junk2 : List Nat) : STRING_old :=
  plusEqStr (copyCtor s junk1) str junk2

/-- `STRING_old::operator+(char)`: exactly the source's steps — a fresh
default-constructed `result`, ensure `this_used + 1`, read `result_used`
from `result`'s header, copy `this_used` bytes, write `ch` at `result_used`
and a NUL after it, and increment `result`'s `used_`. -/
def plusChar (s : STRING_old) (ch : Nat) (junk1 junk2 : List Nat) :
    STRING_old :=
  let result := mkEmpty junk1
  let s := FixHeader s
  let tu := s.used_
  let r1 := ensure_cstr result (tu + 1) junk2
  let ru := r1.used_
  let d := memcpyAt r1.data 0 (s.data.take tu.toNat)
  let d := d.set ru.toNat ch
  let d := d.set (ru.toNat + 1) 0
  ⟨ru + 1, d⟩

/-- `STRING_old::operator+=(const char*)`: guarded no-op on a null or empty
argument. -/
def plusEqCstr (s : STRING_old) (str : Option (List Nat))
    (junk : List Nat) : STRING_old :=
  match str with
  | none => s
  | some cs =>
    if cs = [] then s
    else
      let s := FixHeader s
      let len : Int := (cs.length : Int) + 1
      let tu := s.used_
      let s1 := ensure_cstr s (tu + len) junk
      if tu > 0 then
        ⟨tu + len - 1, memcpyAt s1.data (tu - 1).toNat (cs ++ [0])⟩
      else
        ⟨len, memcpyAt s1.data 0 (cs ++ [0])⟩

/-- `STRING_old::operator+=(char)`: guarded no-op on `'\0'`. -/
def plusEqChar (s : STRING_old) (ch : Nat) (junk : List Nat) : STRING_old :=
  if ch = 0 then s
  else
    let s := FixHeader s
    let tu := s.used_
    let s1 := ensure_cstr s (tu + 1) junk
    let tu2 := if tu > 0 then tu - 1 else tu
    let d := s1.data.set tu2.toNat ch
    let d := d.set (tu2.toNat + 1) 0
    ⟨tu2 + 2, d⟩

/-- `STRING_old::operator==`: fix both headers, compare `used_`, then
`memcmp` over `used_` bytes. -/
def eqStr (a b : STRING_old) : Bool :=
  let a := FixHeader a
  let b := FixHeader b
  a.used_ = b.used_ ∧ a.data.take a.used_.toNat = b.data.take a.used_.toNat

/-- The scan performed by `strchr(GetCStr(), c)` for a non-NUL `c`: found if
`c` appears before the first NUL (running off the region without a NUL is
modelled as not found). -/
def strchrFound : List Nat → Nat → Bool
  | [], _ => false
  | b :: rest, c => if b = c then true else if b = 0 then false
                    else strchrFound rest c

/-- `STRING_old::contains(char)`. -/
def contains (s : STRING_old) (c : Nat) : Bool :=
  decide (c ≠ 0) && strchrFound s.data c

/-- The four little-endian bytes of a `uint32_t` as written by
`tesseract::Serialize(fp, &len)`. -/
def u32ToLE (n : Nat) : List Nat :=
  [n % 256, n / 256 % 256, n / 65536 % 256, n / 16777216 % 256]

/-- The `uint32_t` read back from four little-endian bytes. -/
def leToU32 (a b c d : Nat) : Nat :=
  a % 256 + 256 * (b % 256) + 65536 * (c % 256) + 16777216 * (d % 256)

/-- Read `n` bytes from a stream: the bytes and the remaining stream, or
`none` on a short read. -/
def readBytes (input : List Nat) (n : Nat) :
    Option (List Nat × List Nat) :=
  if n ≤ input.length then some (input.take n, input.drop n) else none

/-- Read the four bytes of a `uint32_t` prefix from a stream. -/
def readBytes4 (input : List Nat) :
    Option (Nat × Nat × Nat × Nat × List Nat) :=
  match input with
  | a :: b :: c :: d :: rest => some (a, b, c, d, rest)
  | _ => none

/-- `STRING_old::Serialize(FILE*)` (identically `Serialize(TFile*)`): the
bytes written to the channel — the 4-byte length prefix followed by
`length()` raw data bytes, no terminator. -/
def serializeBytes (s : STRING_old) : List Nat :=
  let len := (length s).toNat
  u32ToLE len ++ s.data.take len

/-- `STRING_old::DeSerialize(bool swap, FILE *fp)`: read the prefix,
optionally byte-swap it (`ReverseN`), reject lengths above `UINT16_MAX`,
else `truncate_at(len)` and read `len` payload bytes.  Returns the new
state, the `bool` result, and the unread remainder of the stream. -/
def deSerializeFile (swap : Bool) (s : STRING_old) (input junk : List Nat) :
    STRING_old × Bool × List Nat :=
  match readBytes4 input with
  | none => (s, false, [])
  | some (a, b, c, d, rest) =>
    let len : Nat := if swap then leToU32 d c b a else leToU32 a b c d
    if len > 65535 then (s, false, rest)
    else
      let s1 := truncate_at s (len : Int) junk
      match readBytes rest len with
      | none => (s1, false, [])
      | some (payload, rest') =>
        (⟨s1.used_, memcpyAt s1.data 0 payload⟩, true, rest')

/-- `STRING_old::DeSerialize(TFile *fp)`: read the prefix, `truncate_at(len)`
and read `len` payload bytes — the source performs no ceiling check here. -/
def deSerializeTFile (s : STRING_old) (input junk : List Nat) :
    STRING_old × Bool × List Nat :=
  match readBytes4 input with
  | none => (s, false, [])
  | some (a, b, c, d, rest) =>
    let len : Nat := leToU32 a b c d
    let s1 := truncate_at s (len : Int) junk
    match readBytes rest len with
    | none => (s1, false, [])
    | some (payload, rest') =>
      (⟨s1.used_, memcpyAt s1.data 0 payload⟩, true, rest')

/-- Well-formed state: a valid positive `used_` within capacity, with the
terminator at offset `used_ - 1`. -/
def Valid (s : STRING_old) : Prop :=
  1 ≤ s.used_ ∧ s.used_.toNat ≤ s.data.length ∧
    s.data.getD (s.used_.toNat - 1) 1 = 0

instance (s : STRING_old) : Decidable (Valid s) := by
  unfold Valid; infer_instance

end STRING_old

/-! The thin wrapper `STRING : public std::string`.  Its `split` member is
modelled on the byte list of the string.  The source's in-place terminator
juggling (`(*this)[i] = '\0'` before copying a slice, restored right after)
is invisible to the copied slice `[start_index, i)`, so the pure model copies
the slice directly. -/

namespace STRING

/-- The loop of `STRING::split`: `i` is the scan position, `start` the start
of the current run; on a separator at `i ≠ start` push the slice
`[start, i)`; after the loop, flush `[start, len)` when non-empty. -/
def splitLoop (s : List Nat) (c : Nat) (i start : Nat) : List (List Nat) :=
  if h : i < s.length then
    if s[i] = c then
      (if i ≠ start then [(s.drop start).take (i - start)] else []) ++
        splitLoop s c (i + 1) (i + 1)
    else
      splitLoop s c (i + 1) start
  else
    if s.length ≠ start then [(s.drop start).take (s.length - start)] else []
termination_by s.length - i

/-- `STRING::split(c, splited)`: the sequence of strings pushed into the
sink, in order. -/
def split (s : List Nat) (c : Nat) : List (List Nat) := splitLoop s c 0 0

/-- Modelled from the spec: "emits exactly the non-empty maximal runs of
characters between separators, in order, dropping empty runs between
adjacent separators and any empty trailing run".  `pending` is the run
accumulated so far. -/
def splitSpecGo (c : Nat) : List Nat → List Nat → List (List Nat)
  | pending, [] => if pending = [] then [] else [pending]
  | pending, b :: rest =>
    if b = c then
      (if pending = [] then [] else [pending]) ++ splitSpecGo c [] rest
    else
      splitSpecGo c (pending ++ [b]) rest

/-- Modelled from the spec: the non-empty maximal separator-free runs of
`s`, in order. -/
def splitSpec (s : List Nat) (c : Nat) : List (List Nat) :=
  splitSpecGo c [] s

end STRING

/-! ### Helper lemmas about the memory model -/

theorem freshBytes_length (cap : Nat) (junk : List Nat) :
    (freshBytes cap junk).length = cap := by
  simp [freshBytes]

theorem memcpyAt_zero {dst src : List Nat} (h : src.length ≤ dst.length) :
    memcpyAt dst 0 src = src ++ dst.drop src.length := by
  unfold memcpyAt
  rw [List.take_zero, List.nil_append, Nat.zero_add,
    List.take_of_length_le]
  simp [List.length_drop]
  omega

theorem memcpyAt_zero_length {dst src : List Nat}
    (h : src.length ≤ dst.length) :
    (memcpyAt dst 0 src).length = dst.length := by
  rw [memcpyAt_zero h]
  simp [List.length_drop]
  omega

theorem cstrlen_eq {l : List Nat} {j : Nat} (hj : j < l.length)
    (h0 : l[j] = 0) (hnz : ∀ i (hi : i < j), l[i] ≠ 0) : cstrlen l = j := by
  unfold cstrlen
  rw [List.findIdx_eq hj]
  refine ⟨by simp [h0], fun i hi => ?_⟩
  simpa using hnz i hi

theorem FixHeader_of_nonneg {s : STRING_old} (h : 0 ≤ s.used_) :
    STRING_old.FixHeader s = s := by
  unfold STRING_old.FixHeader
  rw [if_neg (by omega)]

namespace STRING_old

theorem ensure_cstr_used (s : STRING_old) (m : Int) (junk : List Nat) :
    (ensure_cstr s m junk).used_ = s.used_ := by
  unfold ensure_cstr
  split <;> rfl

theorem ensure_cstr_length_ge (s : STRING_old) (m : Int) (junk : List Nat) :
    m.toNat ≤ (ensure_cstr s m junk).data.length := by
  unfold ensure_cstr
  split
  · next h =>
    have : (0:Int) ≤ (s.data.length : Int) := by positivity
    simp only [capacity_] at h
    omega
  · next h =>
    simp only [capacity_] at h
    have hcap : (0:Int) ≤ (s.data.length : Int) := by positivity
    rw [memcpyAt_zero_length, freshBytes_length]
    · split <;> omega
    · rw [freshBytes_length, List.length_take]
      split <;> omega

theorem truncate_at_used (s : STRING_old) (k : Int) (junk : List Nat) :
    (truncate_at s k junk).used_ = k + 1 := rfl

theorem truncate_at_length_ge (s : STRING_old) (k : Int) (junk : List Nat) :
    (k + 1).toNat ≤ (truncate_at s k junk).data.length := by
  unfold truncate_at
  rw [List.length_set]
  exact ensure_cstr_length_ge _ _ _

theorem strchrFound_iff (c : Nat) (hc : c ≠ 0) :
    ∀ l : List Nat, strchrFound l c = true ↔ c ∈ l.take (cstrlen l)
  | [] => by simp [strchrFound, cstrlen]
  | b :: rest => by
    unfold strchrFound
    by_cases hb : b = c
    · subst hb
      simp only [if_pos rfl, true_iff]
      have : cstrlen (b :: rest) = cstrlen rest + 1 := by
        simp [cstrlen, List.findIdx_cons, hc]
      rw [this]
      simp
    · rw [if_neg hb]
      by_cases h0 : b = 0
      · subst h0
        have : cstrlen (0 :: rest) = 0 := by simp [cstrlen, List.findIdx_cons]
        simp [this, hb]
      · rw [if_neg h0]
        have : cstrlen (b :: rest) = cstrlen rest + 1 := by
          simp [cstrlen, List.findIdx_cons, h0]
        rw [this, List.take_succ_cons, strchrFound_iff c hc rest]
        simp [List.mem_cons]
        tauto

end STRING_old

open STRING_old

/-! ### Claim theorems -/

/-- C8: appending a null C-string pointer, an empty C-string, or the
character `'\0'` via `operator+=` leaves the string completely unchanged
(same header, same data region, hence same content, length and capacity):
the guards return before any reallocation or write. -/
theorem noop_appends (s : STRING_old) (junk : List Nat) :
    plusEqCstr s none junk = s ∧ plusEqCstr s (some []) junk = s ∧
      plusEqChar s 0 junk = s := by
  refine ⟨rfl, ?_, ?_⟩ <;> simp [plusEqCstr, plusEqChar]

/-- C9 counterexample: `STRING_old("")` allocates `strlen("") + 1 = 1` bytes,
so its capacity is `1 < 16 = kMinCapacity`, refuting the claim that every
constructor yields capacity at least the default minimum. -/
theorem capacity_min_counterexample :
    capacity_ (fromCstr (some []) []) = 1 ∧
      ¬ kMinCapacity ≤ capacity_ (fromCstr (some []) []) := by decide

/-- C9 amended: only the default constructor and assignment from a null
pointer allocate the default minimum capacity `kMinCapacity = 16`; the
`const char*` constructor allocates exactly `strlen + 1` bytes, the copy
constructor allocates exactly the source's (fixed) `used_` bytes, and the
pointer+length constructor allocates exactly `length + 1` bytes — each of
which can be below 16. -/
theorem capacity_amended (s : STRING_old) (cs ds junk : List Nat)
    (len : Int) :
    capacity_ (mkEmpty junk) = kMinCapacity ∧
    capacity_ (assignCstr s none junk) = kMinCapacity ∧
    capacity_ (fromCstr (some cs) junk) = (cs.length : Int) + 1 ∧
    capacity_ (copyCtor s junk) = (FixHeader s).used_ ∧
    (0 ≤ len → capacity_ (fromData (some ds) len junk) = len + 1) := by
  have hnn : 0 ≤ (FixHeader s).used_ := by
    unfold FixHeader
    split
    · show (0:Int) ≤ (cstrlen s.data : Int) + 1
      have : (0:Int) ≤ (cstrlen s.data : Int) := by
        exact_mod_cast Nat.zero_le _
      omega
    · next h => omega
  refine ⟨?_, ?_, ?_, ?_, ?_⟩
  · show ((memcpyAt (freshBytes (16:Int).toNat junk) 0 [0]).length : Int) = 16
    rw [memcpyAt_zero_length] <;> rw [freshBytes_length] <;> simp
  · show capacity_ (mkEmpty junk) = kMinCapacity
    show ((memcpyAt (freshBytes (16:Int).toNat junk) 0 [0]).length : Int) = 16
    rw [memcpyAt_zero_length] <;> rw [freshBytes_length] <;> simp
  · show ((memcpyAt (freshBytes ((cs.length : Int) + 1).toNat junk) 0
      (cs ++ [0])).length : Int) = (cs.length : Int) + 1
    rw [memcpyAt_zero_length] <;> rw [freshBytes_length] <;> simp
  · show ((memcpyAt (freshBytes (FixHeader s).used_.toNat junk) 0
      ((FixHeader s).data.take (FixHeader s).used_.toNat)).length : Int) =
      (FixHeader s).used_
    rw [memcpyAt_zero_length (by
        rw [freshBytes_length, List.length_take]
        omega),
      freshBytes_length]
    omega
  · intro hlen
    show (((memcpyAt (freshBytes (len + 1).toNat junk) 0
      (ds.take len.toNat)).set len.toNat 0).length : Int) = len + 1
    rw [List.length_set,
      memcpyAt_zero_length (by
        rw [freshBytes_length, List.length_take]
        omega),
      freshBytes_length]
    omega

/-- Witness for C9's amended theorem: the pointer+length constructor with
length 2 (bytes "ab") allocates capacity 3 = length + 1, and the copy of
`"a"` (used = 2) allocates capacity 2. -/
theorem capacity_amended_witness :
    (capacity_ (fromData (some [97, 98]) 2 []) = 2 + 1) ∧
    capacity_ (copyCtor ⟨2, [97, 0]⟩ []) = (FixHeader ⟨2, [97, 0]⟩).used_ :=
  ⟨(capacity_amended ⟨2, [97, 0]⟩ [] [97, 98] [] 2).2.2.2.2 (by decide),
   (capacity_amended ⟨2, [97, 0]⟩ [] [97, 98] [] 2).2.2.2.1⟩

/-- C1: code bug in `STRING_old::operator+(char)`.  The code writes `ch` at
offset `result_used` — which is `1`, the `used_` of the fresh
default-constructed `result` — instead of at the end of the copied content,
contradicting its own comments ("overwrite old '\0'", "append on '\0'") and
the header invariant.  At the failing input `STRING_old("ab") + 'c'` the
result has `used_ = 2 > 0`, the byte at offset `used_ - 1 = 1` is `'c'`
(99), not `'\0'`, and `strlen + 1 = 3 ≠ used_`; the expected result "abc"
would have `used_ = 4`. -/
theorem plusChar_breaks_invariant :
    (plusChar (fromCstr (some [97, 98]) []) 99 [] []).used_ = 2 ∧
    (plusChar (fromCstr (some [97, 98]) []) 99 [] []).data.getD 1 1 = 99 ∧
    cstrlen (plusChar (fromCstr (some [97, 98]) []) 99 [] []).data = 2 ∧
    (plusChar (fromCstr (some [97, 98]) []) 99 [] []).data.take 3 =
      [97, 99, 0] := by decide

/-- C2 counterexample: `STRING_old::DeSerialize(TFile*)` performs no ceiling
check.  With the receiver holding "hello" (`used_ = 6`) and a channel whose
4-byte prefix declares length 70000 (> 65535), the operation calls
`truncate_at(70000)` — mutating the receiver to `used_ = 70001` — before the
payload read fails, refuting the claim that every deserialization entry
point rejects oversized lengths without mutating the receiver. -/
theorem deSerializeTFile_no_ceiling_counterexample :
    (deSerializeTFile ⟨6, [104, 101, 108, 108, 111, 0]⟩
        [112, 17, 1, 0] []).1.used_ = 70001 ∧
    (STRING_old.mk 6 [104, 101, 108, 108, 111, 0]).used_ = 6 ∧
    (deSerializeTFile ⟨6, [104, 101, 108, 108, 111, 0]⟩
        [112, 17, 1, 0] []).1 ≠ ⟨6, [104, 101, 108, 108, 111, 0]⟩ := by
  refine ⟨rfl, rfl, ?_⟩
  intro h
  have h1 : (deSerializeTFile ⟨6, [104, 101, 108, 108, 111, 0]⟩
      [112, 17, 1, 0] []).1.used_ = 70001 := rfl
  rw [h] at h1
  exact absurd h1 (by decide)

/-- C2 amended: only the FILE-channel `DeSerialize(bool, FILE*)` enforces
the 65535 ceiling: whenever the declared 4-byte length (after the optional
byte swap) exceeds 65535 it returns `false` with the receiver's state
untouched; the TFile-channel `DeSerialize(TFile*)` performs no such check
and truncates the receiver to whatever length it reads. -/
theorem deSerializeFile_rejects_oversized (swap : Bool) (s : STRING_old)
    (input junk : List Nat) (a b c d : Nat) (rest : List Nat)
    (h4 : readBytes4 input = some (a, b, c, d, rest))
    (hlen : 65535 < (if swap then leToU32 d c b a else leToU32 a b c d)) :
    deSerializeFile swap s input junk = (s, false, rest) := by
  unfold deSerializeFile
  rw [h4]
  simp only [gt_iff_lt]
  rw [if_pos hlen]

/-- Witness for C2's amended theorem: a declared length of 65536 with
`swap = false` is rejected without mutating the receiver. -/
theorem deSerializeFile_rejects_oversized_witness :
    deSerializeFile false ⟨1, [0]⟩ [0, 0, 1, 0] [] = (⟨1, [0]⟩, false, []) :=
  deSerializeFile_rejects_oversized false ⟨1, [0]⟩ [0, 0, 1, 0] []
    0 0 1 0 [] (by decide) (by decide)

/-- C10: `contains(c)` returns `false` for `c = '\0'` (the explicit guard),
and for `c ≠ '\0'` it returns `true` exactly when `c` occurs among the data
bytes strictly before the first NUL terminator. -/
theorem contains_spec (s : STRING_old) (c : Nat) :
    (c = 0 → contains s c = false) ∧
    (c ≠ 0 → (contains s c = true ↔ c ∈ s.data.take (cstrlen s.data))) := by
  constructor
  · intro h
    simp [contains, h]
  · intro hc
    rw [contains, Bool.and_eq_true, decide_eq_true_eq,
      strchrFound_iff c hc s.data]
    tauto

/-- Witness for C10: `"hi"` contains `'i'` (105) but not `'\0'`. -/
theorem contains_spec_witness :
    contains (fromCstr (some [104, 105]) []) 105 = true ∧
    contains (fromCstr (some [104, 105]) []) 0 = false :=
  ⟨((contains_spec (fromCstr (some [104, 105]) []) 105).2
      (by decide)).mpr (by decide),
   (contains_spec (fromCstr (some [104, 105]) []) 0).1 rfl⟩

/-- C5: `ensure_cstr(min_capacity)` on a buffer with a valid (non-negative)
`used_` within capacity: if `min_capacity` already fits it is the identity;
otherwise the new capacity is `max(min_capacity, 2 × old capacity)`, exactly
the first `used_` live bytes are preserved, and `used_` is unchanged. -/
theorem ensure_cstr_spec (s : STRING_old) (m : Int) (junk : List Nat)
    (h0 : 0 ≤ s.used_) (h1 : s.used_.toNat ≤ s.data.length) :
    (m ≤ capacity_ s → ensure_cstr s m junk = s) ∧
    (capacity_ s < m →
      (ensure_cstr s m junk).used_ = s.used_ ∧
      capacity_ (ensure_cstr s m junk) = max m (2 * capacity_ s) ∧
      (ensure_cstr s m junk).data.take s.used_.toNat =
        s.data.take s.used_.toNat) := by
  constructor
  · intro h
    unfold ensure_cstr
    rw [if_pos h]
  · intro h
    have hsrc : (s.data.take s.used_.toNat).length ≤
        (freshBytes (if m < 2 * capacity_ s then 2 * capacity_ s
          else m).toNat junk).length := by
      rw [freshBytes_length, List.length_take]
      have hcap : (0:Int) ≤ capacity_ s := by
        unfold capacity_; exact_mod_cast Nat.zero_le _
      unfold capacity_ at h hcap ⊢
      split <;> omega
    refine ⟨ensure_cstr_used s m junk, ?_, ?_⟩
    · unfold ensure_cstr
      rw [if_neg (not_le.mpr h)]
      show ((memcpyAt _ 0 (s.data.take s.used_.toNat)).length : Int) = _
      rw [memcpyAt_zero_length hsrc, freshBytes_length]
      have hcap : (0:Int) ≤ capacity_ s := by
        unfold capacity_; exact_mod_cast Nat.zero_le _
      rcases lt_or_le m (2 * capacity_ s) with hm | hm
      · rw [if_pos hm, max_eq_right (le_of_lt hm)]
        unfold capacity_ at hm hcap ⊢
        omega
      · rw [if_neg (not_lt.mpr hm), max_eq_left hm]
        unfold capacity_ at h hcap
        omega
    · unfold ensure_cstr
      rw [if_neg (not_le.mpr h)]
      show (memcpyAt _ 0 (s.data.take s.used_.toNat)).take s.used_.toNat = _
      rw [memcpyAt_zero hsrc,
        List.take_append_of_le_length (by rw [List.length_take]; omega),
        List.take_take, Nat.min_self]

/-- Witness for C5: growing a capacity-1 buffer `"\0"` (used = 1) to
capacity 3 yields capacity `max 3 2 = 3` and preserves the single live
byte. -/
theorem ensure_cstr_spec_witness :
    (ensure_cstr ⟨1, [0]⟩ 3 [7, 7, 7]).used_ = 1 ∧
    capacity_ (ensure_cstr ⟨1, [0]⟩ 3 [7, 7, 7]) = max 3 2 ∧
    (ensure_cstr ⟨1, [0]⟩ 3 [7, 7, 7]).data.take 1 = [0].take 1 :=
  (ensure_cstr_spec ⟨1, [0]⟩ 3 [7, 7, 7] (by decide) (by decide)).2
    (by decide)

/-- C4: `truncate_at(k)` on a string with a valid header and `k ≥ 0` yields
`length() = k`, writes the terminator at offset `k`, and for `k ≤ length()`
preserves the first `k` bytes of the prior content (for `k > length()` the
bytes between the old terminator and `k` are unspecified, and nothing is
claimed about them). -/
theorem truncate_at_spec (s : STRING_old) (k : Int) (junk : List Nat)
    (hv : Valid s) (hk : 0 ≤ k) :
    length (truncate_at s k junk) = k ∧
    (truncate_at s k junk).data.getD k.toNat 1 = 0 ∧
    (k ≤ length s →
      (truncate_at s k junk).data.take k.toNat = s.data.take k.toNat) := by
  obtain ⟨hu, hcap, -⟩ := hv
  have hfix : FixHeader s = s := FixHeader_of_nonneg (by omega)
  refine ⟨?_, ?_, ?_⟩
  · show (FixHeader ⟨k + 1, _⟩).used_ - 1 = k
    rw [FixHeader_of_nonneg (by simp; omega)]
    simp
  · have hlen : k.toNat < (truncate_at s k junk).data.length := by
      have := truncate_at_length_ge s k junk
      omega
    rw [List.getD_eq_getElem _ _ hlen]
    show ((ensure_cstr (FixHeader s) (k + 1) junk).data.set k.toNat 0)[k.toNat] = 0
    rw [List.getElem_set_self]
  · intro hkl
    rw [length, hfix] at hkl
    have hnogrow : k + 1 ≤ capacity_ (FixHeader s) := by
      rw [hfix]
      unfold capacity_
      omega
    show ((ensure_cstr (FixHeader s) (k + 1) junk).data.set k.toNat 0).take
        k.toNat = s.data.take k.toNat
    unfold ensure_cstr
    rw [if_pos hnogrow, hfix]
    apply List.ext_getElem
    · simp
    · intro n h1 h2
      rw [List.getElem_take, List.getElem_set_ne, ← List.getElem_take
        (h := h2)]
      simp only [List.length_take, List.length_set] at h1
      omega

/-- Witness for C4: truncating `"ab"` at 1 gives length 1 with content
`"a"`, and truncating it at 4 (past the end) gives length 4 with the
terminator at offset 4. -/
theorem truncate_at_spec_witness :
    (length (truncate_at ⟨3, [97, 98, 0]⟩ 1 []) = 1 ∧
      (truncate_at ⟨3, [97, 98, 0]⟩ 1 []).data.take 1 =
        [97, 98, 0].take 1) ∧
    (length (truncate_at ⟨3, [97, 98, 0]⟩ 4 [7, 7, 7]) = 4 ∧
      (truncate_at ⟨3, [97, 98, 0]⟩ 4 [7, 7, 7]).data.getD 4 1 = 0) :=
  ⟨⟨(truncate_at_spec ⟨3, [97, 98, 0]⟩ 1 [] (by decide) (by decide)).1,
    (truncate_at_spec ⟨3, [97, 98, 0]⟩ 1 [] (by decide) (by decide)).2.2
      (by decide)⟩,
   ⟨(truncate_at_spec ⟨3, [97, 98, 0]⟩ 4 [7, 7, 7] (by decide)
      (by decide)).1,
    (truncate_at_spec ⟨3, [97, 98, 0]⟩ 4 [7, 7, 7] (by decide)
      (by decide)).2.1⟩⟩

/-- C6: obtaining a mutable reference via `operator[]` (which sets the dirty
sentinel `used_ = -1`) and writing `'\0'` at offset `j` — where `j` is the
position of the first terminator of the new content, i.e. no earlier byte is
NUL — makes the next `length()` call rescan and return `j`, not the stale
cached length. -/
theorem dirty_length_recompute (s : STRING_old) (j : Nat)
    (hv : Valid s) (hj : (j : Int) < length s)
    (hnz : ∀ i, i < j → s.data.getD i 1 ≠ 0) :
    length (extWrite s j 0) = j := by
  obtain ⟨hu, hcap, -⟩ := hv
  rw [length, FixHeader_of_nonneg (by omega)] at hj
  have hjlen : j < s.data.length := by omega
  show (FixHeader ⟨-1, s.data.set j 0⟩).used_ - 1 = (j : Int)
  unfold FixHeader
  rw [if_pos (by norm_num)]
  have : cstrlen (s.data.set j 0) = j := by
    apply cstrlen_eq (by simpa using hjlen)
    · exact List.getElem_set_self _
    · intro i hi
      rw [List.getElem_set_ne (by omega)]
      have := hnz i hi
      rwa [List.getD_eq_getElem _ _ (by omega)] at this
  simp [this]

/-- Witness for C6: `"hello"` (length 5) with `'\0'` written at offset 2
through `operator[]` re-measures to length 2. -/
theorem dirty_length_recompute_witness :
    length (extWrite ⟨6, [104, 101, 108, 108, 111, 0]⟩ 2 0) = 2 :=
  dirty_length_recompute ⟨6, [104, 101, 108, 108, 111, 0]⟩ 2 (by decide)
    (by decide) (by decide)

theorem deSerializeFile_accepts (swap : Bool) (x : STRING_old)
    (input junk : List Nat) (a b c d : Nat) (rest : List Nat)
    (len : Nat) (payload rest' : List Nat)
    (h4 : readBytes4 input = some (a, b, c, d, rest))
    (hlen : (if swap then leToU32 d c b a else leToU32 a b c d) = len)
    (hle : len ≤ 65535)
    (hread : readBytes rest len = some (payload, rest')) :
    deSerializeFile swap x input junk =
      (⟨(len : Int) + 1,
        memcpyAt (truncate_at x (len : Int) junk).data 0 payload⟩,
       true, rest') := by
  unfold deSerializeFile
  simp only [h4, hlen]
  rw [if_neg (by omega)]
  simp only [hread]
  rfl

/-- C3: for every valid string `original` with `length() ≤ 65535`,
serializing it (4-byte little-endian length prefix followed by exactly
`length()` raw data bytes, no terminator) and deserializing those bytes with
`swap = false` into any receiver `x` succeeds, consumes the whole stream,
and yields a string for which `operator==` with `original` returns true. -/
theorem serialize_roundtrip (s x : STRING_old) (junk : List Nat)
    (hs : Valid s) (hlen : length s ≤ 65535) :
    (deSerializeFile false x (serializeBytes s) junk).2.1 = true ∧
    eqStr (deSerializeFile false x (serializeBytes s) junk).1 s = true ∧
    (deSerializeFile false x (serializeBytes s) junk).2.2 = [] := by
  obtain ⟨hu, hcap, hterm⟩ := hs
  have hfix : FixHeader s = s := FixHeader_of_nonneg (by omega)
  have hlen' : length s = s.used_ - 1 := by rw [length, hfix]
  set n : Nat := (length s).toNat with hn_def
  have hn : (n : Int) = s.used_ - 1 := by rw [hn_def, hlen']; omega
  rw [hlen'] at hlen
  have hn65535 : n ≤ 65535 := by omega
  have hnlt : n < s.data.length := by omega
  have hpl : (s.data.take n).length = n := by
    rw [List.length_take]; omega
  have h4 : readBytes4 (serializeBytes s) =
      some (n % 256, n / 256 % 256, n / 65536 % 256, n / 16777216 % 256,
        s.data.take n) := rfl
  have hval : leToU32 (n % 256) (n / 256 % 256) (n / 65536 % 256)
      (n / 16777216 % 256) = n := by
    unfold leToU32; omega
  have hread : readBytes (s.data.take n) n = some (s.data.take n, []) := by
    unfold readBytes
    rw [if_pos (by omega), List.take_take, Nat.min_self,
      List.drop_eq_nil_of_le (by omega)]
  have hrun := deSerializeFile_accepts false x (serializeBytes s) junk
    (n % 256) (n / 256 % 256) (n / 65536 % 256) (n / 16777216 % 256)
    (s.data.take n) n (s.data.take n) [] h4 (by simpa using hval)
    hn65535 hread
  rw [hrun]
  refine ⟨rfl, ?_, rfl⟩
  -- the equality check
  have hs1len : n + 1 ≤ (truncate_at x (n : Int) junk).data.length := by
    have := truncate_at_length_ge x (n : Int) junk
    omega
  have hs1get : (truncate_at x (n : Int) junk).data[n]? = some 0 := by
    show ((ensure_cstr (FixHeader x) ((n : Int) + 1) junk).data.set
      (n : Int).toNat 0)[n]? = some 0
    have htn : ((n : Int)).toNat = n := by omega
    rw [htn]
    have hE : n < (ensure_cstr (FixHeader x) ((n : Int) + 1)
        junk).data.length := by
      have h := truncate_at_length_ge x (n : Int) junk
      unfold truncate_at at h
      rw [List.length_set] at h
      omega
    exact List.getElem?_set_self hE
  unfold eqStr
  rw [FixHeader_of_nonneg (by show (0:Int) ≤ (n : Int) + 1; omega), hfix]
  rw [decide_eq_true_eq]
  have htn1 : ((n : Int) + 1).toNat = n + 1 := by omega
  refine ⟨by show (n : Int) + 1 = s.used_; omega, ?_⟩
  show (memcpyAt (truncate_at x (n : Int) junk).data 0
      (s.data.take n)).take ((n : Int) + 1).toNat =
    s.data.take ((n : Int) + 1).toNat
  rw [htn1, memcpyAt_zero (by omega), hpl]
  rw [show n + 1 = (s.data.take n).length + 1 by omega]
  rw [List.take_append, List.take_one, List.head?_drop, hs1get]
  rw [hpl, List.take_succ, List.getElem?_eq_getElem hnlt]
  have hsn : s.data[n] = 0 := by
    have h1 : s.used_.toNat - 1 = n := by omega
    rw [h1] at hterm
    rwa [List.getD_eq_getElem _ _ hnlt] at hterm
  rw [hsn]

/-- Witness for C3: `"ab"` (used = 3) serialized and deserialized into a
default-empty receiver compares equal to the original. -/
theorem serialize_roundtrip_witness :
    (deSerializeFile false ⟨1, [0]⟩
        (serializeBytes ⟨3, [97, 98, 0]⟩) []).2.1 = true ∧
    eqStr (deSerializeFile false ⟨1, [0]⟩
        (serializeBytes ⟨3, [97, 98, 0]⟩) []).1 ⟨3, [97, 98, 0]⟩ = true :=
  ⟨(serialize_roundtrip ⟨3, [97, 98, 0]⟩ ⟨1, [0]⟩ [] (by decide)
      (by decide)).1,
   (serialize_roundtrip ⟨3, [97, 98, 0]⟩ ⟨1, [0]⟩ [] (by decide)
      (by decide)).2.1⟩

theorem splitSpecGo_nil (c : Nat) (pending : List Nat) :
    STRING.splitSpecGo c pending [] =
      if pending = [] then [] else [pending] := rfl

theorem splitSpecGo_cons (c : Nat) (pending : List Nat) (b : Nat)
    (rest : List Nat) :
    STRING.splitSpecGo c pending (b :: rest) =
      if b = c then
        (if pending = [] then [] else [pending]) ++
          STRING.splitSpecGo c [] rest
      else STRING.splitSpecGo c (pending ++ [b]) rest := rfl

theorem splitLoop_terminal (s : List Nat) (c : Nat) (start : Nat)
    (h : start ≤ s.length) :
    STRING.splitLoop s c s.length start =
      STRING.splitSpecGo c ((s.drop start).take (s.length - start))
        (s.drop s.length) := by
  rw [STRING.splitLoop, dif_neg (by omega), List.drop_length,
    splitSpecGo_nil]
  have hpend : (s.drop start).take (s.length - start) = s.drop start := by
    apply List.take_of_length_le
    rw [List.length_drop]
  rw [hpend]
  by_cases hstart : s.length = start
  · rw [if_neg (by omega), if_pos (by rw [List.drop_eq_nil_iff]; omega)]
  · rw [if_pos (by omega), if_neg (by
      intro hnil
      rw [List.drop_eq_nil_iff] at hnil
      omega)]

theorem splitLoop_eq_specGo (s : List Nat) (c : Nat) :
    ∀ fuel i start, s.length - i ≤ fuel → start ≤ i → i ≤ s.length →
      STRING.splitLoop s c i start =
        STRING.splitSpecGo c ((s.drop start).take (i - start))
          (s.drop i) := by
  intro fuel
  induction fuel with
  | zero =>
    intro i start hf hsi hle
    have hi : i = s.length := by omega
    subst hi
    exact splitLoop_terminal s c start hsi
  | succ fuel ih =>
    intro i start hf hsi hle
    by_cases hi : i < s.length
    · rw [STRING.splitLoop, dif_pos hi,
        List.drop_eq_getElem_cons hi, splitSpecGo_cons]
      by_cases hc : s[i] = c
      · rw [if_pos hc, if_pos hc,
          ih (i + 1) (i + 1) (by omega) (le_refl _) (by omega)]
        simp only [Nat.sub_self, List.take_zero]
        congr 1
        by_cases his : i = start
        · rw [if_neg (by omega), if_pos (by rw [his, Nat.sub_self,
            List.take_zero])]
        · rw [if_pos (by omega), if_neg (by
            intro hnil
            have := congrArg List.length hnil
            simp only [List.length_take, List.length_drop,
              List.length_nil] at this
            omega)]
      · rw [if_neg hc, if_neg hc,
          ih (i + 1) start (by omega) (by omega) (by omega)]
        congr 1
        have h1 : i + 1 - start = (i - start) + 1 := by omega
        have hlt : i - start < (s.drop start).length := by
          rw [List.length_drop]; omega
        rw [h1, List.take_succ, List.getElem?_eq_getElem hlt,
          List.getElem_drop]
        simp only [show start + (i - start) = i from by omega,
          Option.toList_some]
    · have hieq : i = s.length := by omega
      subst hieq
      exact splitLoop_terminal s c start hsi

theorem split_eq_splitSpec (s : List Nat) (c : Nat) :
    STRING.split s c = STRING.splitSpec s c := by
  rw [STRING.split,
    splitLoop_eq_specGo s c s.length 0 0 (by omega) (by omega) (by omega)]
  simp [STRING.splitSpec]

/-- C7: `split(c)` emits exactly the non-empty maximal separator-free runs
of the string, in order (empty runs between adjacent separators and an
empty trailing run are dropped); in particular `"a,,b,".split(',')` yields
`["a", "b"]` and `"abc".split(',')` yields `["abc"]` (bytes: `a` = 97,
`,` = 44, `b` = 98, `c` = 99). -/
theorem split_runs (s : List Nat) (c : Nat) :
    STRING.split s c = STRING.splitSpec s c ∧
    STRING.split [97, 44, 44, 98, 44] 44 = [[97], [98]] ∧
    STRING.split [97, 98, 99] 44 = [[97, 98, 99]] := by
  refine ⟨split_eq_splitSpec s c, ?_, ?_⟩ <;>
    rw [split_eq_splitSpec] <;> decide

end Strngs
